import Mathlib

/-!
Verification development for the diff parsing and filtering engine of
pr-pilot (src/agent/lib/diff-parser.js).

The JavaScript source is shallowly embedded: JS strings become `String`
(processed as their character lists), JS arrays become `List`, JS numbers
used as counts or indices become `Nat` or `Int`, nullable values become
`Option`, and the one throwing code path (`parseHunkHeader`) is modelled
with `Except`.  The line scan of `parseDiff` is an explicit fold over the
split lines carrying the mutable locals (`fileDiffs`, `currentFile`,
`currentHunk`, `inHunk`) as a state record.
-/

/-- Model of JS `String.prototype.startsWith`: the first argument is the
string, the second the candidate prefix. -/
def strStartsWith (s pre : String) : Bool :=
  List.isPrefixOf pre.data s.data

/-- Model of JS `String.prototype.includes` on character lists: left-to-right
scan for the pattern as a contiguous infix. -/
def hasSubstr (s sub : List Char) : Bool :=
  if sub.isPrefixOf s then true
  else
    match s with
    | [] => false
    | _ :: t => hasSubstr t sub

/-- Model of JS `String.prototype.replace` with a plain-string pattern:
replaces only the first occurrence (here always by the empty string, which is
how the source uses it). -/
def dropFirstOccurrence (s pat : List Char) : List Char :=
  if pat.isPrefixOf s then s.drop pat.length
  else
    match s with
    | [] => []
    | c :: t => c :: dropFirstOccurrence t pat

/-- The source's `line.replace(pat, '')`, on `String`. -/
def strDropFirst (s pat : String) : String :=
  ⟨dropFirstOccurrence s.data pat.data⟩

/-- Model of JS `String.prototype.split('\n')`: split on every newline,
keeping empty segments (so the result always has one more segment than the
number of newlines). -/
def splitNL : List Char → List (List Char)
  | [] => [[]]
  | c :: t =>
    if c = '\n' then [] :: splitNL t
    else
      match splitNL t with
      | [] => [[c]]
      | x :: xs => (c :: x) :: xs

/-- The line list `diffContent.split('\n')` of the source. -/
def splitLines (s : String) : List String :=
  (splitNL s.data).map fun l => ⟨l⟩

/-- Value of a nonempty digit run, as read by JS `parseInt(d, 10)`. -/
def digitsToNat (ds : List Char) : Nat :=
  ds.foldl (fun n c => n * 10 + (c.toNat - '0'.toNat)) 0

/-- Greedy `\d+`: reads a maximal nonempty digit run and returns its value
together with the rest of the input; fails when no digit is first. -/
def readDigits (s : List Char) : Option (Nat × List Char) :=
  let ds := s.takeWhile Char.isDigit
  if ds.isEmpty then none else some (digitsToNat ds, s.drop ds.length)

/-- Whitespace trimming used for the trailing hunk-header context
(JS `String.prototype.trim`). -/
def trimWs (s : List Char) : List Char :=
  ((s.dropWhile Char.isWhitespace).reverse.dropWhile Char.isWhitespace).reverse

/-- Model of JS `Array.prototype.slice(s, e)`: negative indices count from the
end, and both bounds are clamped to the array. -/
def jsSliceIdx (len : Nat) (x : Int) : Nat :=
  if x < 0 then (max ((len : Int) + x) 0).toNat else min x.toNat len

/-- JS `arr.slice(s, e)`. -/
def jsSlice {α : Type} (l : List α) (s e : Int) : List α :=
  (l.take (jsSliceIdx l.length e)).drop (jsSliceIdx l.length s)

/-- A parsed diff hunk (the `DiffHunk` record of the source). -/
structure DiffHunk where
  file : String
  oldStart : Nat
  oldCount : Nat
  newStart : Nat
  newCount : Nat
  lines : List String
  content : String
  additions : Nat
  deletions : Nat
  context : String
deriving Repr, DecidableEq

/-- A parsed file diff (the `FileDiff` record of the source). -/
structure FileDiff where
  path : String
  oldPath : String
  newPath : String
  status : String
  hunks : List DiffHunk
  rawDiff : String
  additions : Nat
  deletions : Nat
  binary : Bool
  index : Option String
deriving Repr, DecidableEq

/-- The error thrown by `parseHunkHeader` (`Invalid hunk header at line i`),
carrying the offending line index and the line itself. -/
structure HunkErr where
  lineNumber : Nat
  line : String
deriving Repr, DecidableEq

/-- One entry of `extractChangedLines`. -/
structure ChangedLine where
  type : String
  line : String
  lineNumber : Nat
  hunkIndex : Nat
deriving Repr, DecidableEq

/-- One attempt of the path-pair pattern `diff --git a\/(.+) b\/(.+)` at the
head of the input.  The first capture group is greedy, so the ` b/` separator
is the rightmost occurrence with a nonempty left part (after `a/`) and a
nonempty right part. -/
def splitLastPathPair (marker : List Char) : List Char → Option (List Char × List Char)
  | [] => none
  | c :: rest =>
    match splitLastPathPair marker rest with
    | some (x, y) => some (c :: x, y)
    | none =>
      if marker.isPrefixOf rest && !(rest.drop marker.length).isEmpty then
        some ([c], rest.drop marker.length)
      else none

/-- The path-pair pattern applied at the start of the input. -/
def matchDiffGitHere (s : List Char) : Option (String × String) :=
  if ("diff --git a/".data).isPrefixOf s then
    match splitLastPathPair (" b/".data) (s.drop ("diff --git a/".data).length) with
    | some (x, y) => some (⟨x⟩, ⟨y⟩)
    | none => none
  else none

/-- Unanchored (leftmost) search for the path-pair pattern, as performed by
`diffLine.match(/diff --git a\/(.+) b\/(.+)/)`. -/
def matchDiffGitPaths : List Char → Option (String × String)
  | [] => matchDiffGitHere []
  | c :: t =>
    match matchDiffGitHere (c :: t) with
    | some r => some r
    | none => matchDiffGitPaths t

/-- The source's `createNewFileDiff`: extracts the two paths from the
`diff --git` line and initialises a fresh record with `status = modified`. -/
def createNewFileDiff (diffLine : String) : FileDiff :=
  let m := matchDiffGitPaths diffLine.data
  let oldPath : String := match m with | some (o, _) => o | none => ""
  let newPath : String := match m with | some (_, n) => n | none => ""
  { path := if newPath = "" then oldPath else newPath,
    oldPath := oldPath, newPath := newPath, status := "modified", hunks := [],
    rawDiff := diffLine ++ "\n", additions := 0, deletions := 0, binary := false,
    index := none }

/-- One attempt of `@@ -(\d+)(?:,(\d+))? \+(\d+)(?:,(\d+))? @@(.*)` at the head
of the input.  The digit runs are greedy, and an optional `,(\d+)` group can
only participate when a comma with at least one digit follows (otherwise the
required following character fails the whole attempt, matching the regex
engine's backtracking). -/
def matchHunkAt (s : List Char) : Option (Nat × Option Nat × Nat × Option Nat × List Char) :=
  if ("@@ -".data).isPrefixOf s then
    match readDigits (s.drop 4) with
    | none => none
    | some (o1, s1) =>
      let p1 : Option Nat × List Char :=
        match s1 with
        | ',' :: t =>
          match readDigits t with
          | some (n, r) => (some n, r)
          | none => (none, s1)
        | _ => (none, s1)
      if (" +".data).isPrefixOf p1.2 then
        match readDigits (p1.2.drop 2) with
        | none => none
        | some (n1, s3) =>
          let p2 : Option Nat × List Char :=
            match s3 with
            | ',' :: t =>
              match readDigits t with
              | some (n, r) => (some n, r)
              | none => (none, s3)
            | _ => (none, s3)
          if (" @@".data).isPrefixOf p2.2 then
            some (o1, p1.1, n1, p2.1, p2.2.drop 3)
          else none
      else none
  else none

/-- Unanchored (leftmost) search for the hunk-header pattern, as performed by
`hunkLine.match(...)` in `parseHunkHeader`. -/
def findHunkMatch : List Char → Option (Nat × Option Nat × Nat × Option Nat × List Char)
  | [] => matchHunkAt []
  | c :: t =>
    match matchHunkAt (c :: t) with
    | some r => some r
    | none => findHunkMatch t

/-- Whether a line matches the hunk-header shape anywhere (the `match` call of
`parseHunkHeader` succeeds). -/
def hunkHeaderMatches (line : String) : Bool :=
  (findHunkMatch line.data).isSome

/-- The source's `parseHunkHeader`: on failure it throws (modelled as
`Except.error` carrying the line index); on success the counts default to 1
when the comma group is absent, and the trailing capture is trimmed into
`context`. -/
def parseHunkHeader (hunkLine : String) (lineNumber : Nat) : Except HunkErr DiffHunk :=
  match findHunkMatch hunkLine.data with
  | none => .error ⟨lineNumber, hunkLine⟩
  | some (o1, oc, n1, nc, rest) =>
    .ok { file := "", oldStart := o1, oldCount := oc.getD 1, newStart := n1,
          newCount := nc.getD 1, lines := [], content := hunkLine ++ "\n",
          additions := 0, deletions := 0, context := ⟨trimWs rest⟩ }

/-- The mutable locals of the `parseDiff` loop. -/
structure ParseState where
  fileDiffs : List FileDiff
  currentFile : Option FileDiff
  currentHunk : Option DiffHunk
  inHunk : Bool
deriving Repr, DecidableEq

/-- Initial loop state of `parseDiff`. -/
def initState : ParseState := ⟨[], none, none, false⟩

/-- The `diff --git` branch of the loop: flush the current file (without its
open hunk) and open a fresh one; `inHunk` is cleared but `currentHunk` is
left as it was. -/
def stepFileStart (line : String) (st : ParseState) : ParseState :=
  { fileDiffs :=
      match st.currentFile with
      | some f => st.fileDiffs ++ [f]
      | none => st.fileDiffs,
    currentFile := some (createNewFileDiff line),
    currentHunk := st.currentHunk,
    inHunk := false }

/-- The `index ` branch of the loop. -/
def stepIndexLine (line : String) (st : ParseState) : ParseState :=
  { st with currentFile :=
      match st.currentFile with
      | some f => some { f with index := some line }
      | none => none }

/-- The `Binary files` branch of the loop. -/
def stepBinary (st : ParseState) : ParseState :=
  { st with currentFile :=
      match st.currentFile with
      | some f => some { f with binary := true, status := "binary" }
      | none => none }

/-- The `new file mode` / `deleted file mode` branch of the loop. -/
def stepMode (line : String) (st : ParseState) : ParseState :=
  { st with currentFile :=
      match st.currentFile with
      | some f =>
        if hasSubstr line.data ("new file".data) then some { f with status := "added" }
        else if hasSubstr line.data ("deleted file".data) then some { f with status := "deleted" }
        else some f
      | none => none }

/-- The `rename from` / `rename to` branch of the loop. -/
def stepRename (line : String) (st : ParseState) : ParseState :=
  { st with currentFile :=
      match st.currentFile with
      | some f =>
        let f1 := { f with status := "renamed" }
        if strStartsWith line "rename from" then
          some { f1 with oldPath := strDropFirst line "rename from " }
        else if strStartsWith line "rename to" then
          some { f1 with newPath := strDropFirst line "rename to " }
        else some f1
      | none => none }

/-- The `@@` branch of the loop: with a current file, push the open hunk (if
any) into it and open the parsed new hunk (or throw); without a current file
the line is skipped. -/
def stepHunkHeader (line : String) (i : Nat) (st : ParseState) : Except HunkErr ParseState :=
  match st.currentFile with
  | some f =>
    let f1 :=
      match st.currentHunk with
      | some h => { f with hunks := f.hunks ++ [h] }
      | none => f
    match parseHunkHeader line i with
    | .error e => .error e
    | .ok h => .ok { st with currentFile := some f1, currentHunk := some h, inHunk := true }
  | none => .ok st

/-- The hunk-content branch of the loop: append the line to the open hunk and
classify it. -/
def stepContent (line : String) (st : ParseState) : ParseState :=
  if st.inHunk then
    match st.currentHunk, st.currentFile with
    | some h, some f =>
      let h1 := { h with lines := h.lines ++ [line], content := h.content ++ line ++ "\n" }
      if strStartsWith line "+" && !(strStartsWith line "+++") then
        { st with currentHunk := some { h1 with additions := h1.additions + 1 },
                  currentFile := some { f with additions := f.additions + 1 } }
      else if strStartsWith line "-" && !(strStartsWith line "---") then
        { st with currentHunk := some { h1 with deletions := h1.deletions + 1 },
                  currentFile := some { f with deletions := f.deletions + 1 } }
      else
        { st with currentHunk := some h1 }
    | _, _ => st
  else st

/-- The body of the `parseDiff` loop for one line at index `i`, dispatching
on the line prefix in source order. -/
def parseStep (line : String) (i : Nat) (st : ParseState) : Except HunkErr ParseState :=
  if strStartsWith line "diff --git" then .ok (stepFileStart line st)
  else if strStartsWith line "index " then .ok (stepIndexLine line st)
  else if strStartsWith line "Binary files" then .ok (stepBinary st)
  else if strStartsWith line "new file mode" || strStartsWith line "deleted file mode" then
    .ok (stepMode line st)
  else if strStartsWith line "rename from" || strStartsWith line "rename to" then
    .ok (stepRename line st)
  else if strStartsWith line "@@" then stepHunkHeader line i st
  else .ok (stepContent line st)

/-- The `parseDiff` loop over the remaining lines, starting at index `i`; a
thrown error aborts the remaining iterations (`Except.bind`). -/
def scanLines : List String → Nat → ParseState → Except HunkErr ParseState
  | [], _, st => .ok st
  | l :: rest, i, st => (parseStep l i st).bind fun st1 => scanLines rest (i + 1) st1

/-- The epilogue of `parseDiff`: flush the last open hunk into the current
file, then flush the current file into the output list. -/
def finishScan (st : ParseState) : List FileDiff :=
  let st1 :=
    match st.currentHunk, st.currentFile with
    | some h, some f => { st with currentFile := some { f with hunks := f.hunks ++ [h] } }
    | _, _ => st
  match st1.currentFile with
  | some f => st1.fileDiffs ++ [f]
  | none => st1.fileDiffs

/-- The source's `parseDiff`.  Here `none` models a null-like or non-string
argument; together with the empty string these short-circuit to the empty
output (`!diffContent || typeof diffContent !== 'string'`). -/
def parseDiff : Option String → Except HunkErr (List FileDiff)
  | none => .ok []
  | some s =>
    if s = "" then .ok []
    else (scanLines (splitLines s) 0 initState).map finishScan

/-- The successful result of `parseDiff` (the empty list when it throws),
convenient for evaluating concrete runs. -/
def parseOk (diffContent : Option String) : List FileDiff :=
  match parseDiff diffContent with
  | .ok l => l
  | .error _ => []

/-- Tokens of the small regular-expression dialect that glob compilation in
`matchesPattern` produces: after replacing `**` by `.*` and then every
remaining `*` (including the one just introduced) by `[^/]*`, the regex
string consists of plain characters, the metacharacter `.`, and the
five-character group `[^/]*`. -/
inductive RTok where
  | lit (c : Char)
  | anyChar
  | starNonSlash
deriving Repr, DecidableEq

/-- The replacement `pattern.replace(/\*\*/g, '.*')`: left-to-right, non-overlapping global
replacement, without rescanning the replacement text. -/
def replaceStarStar : List Char → List Char
  | '*' :: '*' :: t => '.' :: '*' :: replaceStarStar t
  | c :: t => c :: replaceStarStar t
  | [] => []

/-- The replacement `r.replace(/\*/g, '[^/]*')`: left-to-right global replacement, without
rescanning the replacement text. -/
def replaceStar : List Char → List Char
  | '*' :: t => '[' :: '^' :: '/' :: ']' :: '*' :: replaceStar t
  | c :: t => c :: replaceStar t
  | [] => []

/-- Reading the produced regex string into tokens.  Characters other than `.`
and the `[^/]*` group are read as literals; this is the behaviour of the real
regex engine as long as the original glob pattern contains no other regex
metacharacter. -/
def parseRegexChars : List Char → List RTok
  | '[' :: '^' :: '/' :: ']' :: '*' :: rest => .starNonSlash :: parseRegexChars rest
  | '.' :: rest => .anyChar :: parseRegexChars rest
  | c :: rest => .lit c :: parseRegexChars rest
  | [] => []

/-- The backtracking loop for `[^/]*`: try the continuation at the current
position, otherwise consume one non-slash character and repeat. -/
def starSkip (k : List Char → Bool) : List Char → Bool
  | [] => k []
  | x :: xs => k (x :: xs) || (x != '/' && starSkip k xs)

/-- Whether the token list matches some prefix of the input (the end of the
match is unanchored, like the source regexes).  `.` matches any character but
a newline; `[^/]*` matches any run of non-slash characters. -/
def rMatch : List RTok → List Char → Bool
  | [], _ => true
  | .lit _ :: _, [] => false
  | .lit c :: ts, x :: xs => c == x && rMatch ts xs
  | .anyChar :: _, [] => false
  | .anyChar :: ts, x :: xs => x != '\n' && rMatch ts xs
  | .starNonSlash :: ts, s => starSkip (rMatch ts) s

/-- Unanchored search: `RegExp.prototype.test` succeeds iff the token list
matches starting at some position of the input. -/
def rSearch (ts : List RTok) : List Char → Bool
  | [] => rMatch ts []
  | c :: xs => rMatch ts (c :: xs) || rSearch ts xs

/-- The compiled token form of the regex string that `matchesPattern` builds
for a wildcard pattern: `pattern.replace(/\*\*/g, '.*').replace(/\*/g,
'[^/]*')` in the `**` branch, `pattern.replace(/\*/g, '[^/]*')` in the `*`
branch. -/
def globTokens (pattern : String) : List RTok :=
  if hasSubstr pattern.data ['*', '*'] then
    parseRegexChars (replaceStar (replaceStarStar pattern.data))
  else
    parseRegexChars (replaceStar pattern.data)

/-- The source's `matchesPattern`: wildcard patterns go through the derived
regex (unanchored `test`), other patterns match by equality or by being a
path-separated prefix. -/
def matchesPattern (filePath pattern : String) : Bool :=
  if hasSubstr pattern.data ['*', '*'] then
    rSearch (globTokens pattern) filePath.data
  else if hasSubstr pattern.data ['*'] then
    rSearch (globTokens pattern) filePath.data
  else
    filePath == pattern || strStartsWith filePath (pattern ++ "/")

/-- The source's `filterFiles`; here `none` models a null-like patterns argument
(the JS default is the empty array, and both disable filtering). -/
def filterFiles (fileDiffs : List FileDiff) (excludePatterns : Option (List String)) :
    List FileDiff :=
  match excludePatterns with
  | none => fileDiffs
  | some ps =>
    if ps.length = 0 then fileDiffs
    else fileDiffs.filter fun fd => !(ps.any fun p => matchesPattern fd.path p)

/-- The source's `limitFiles`: the test `!maxFiles || maxFiles <= 0` disables the
limit, otherwise the result is `fileDiffs.slice(0, maxFiles)`. -/
def limitFiles (fileDiffs : List FileDiff) (maxFiles : Int) : List FileDiff :=
  if maxFiles = 0 ∨ maxFiles ≤ 0 then fileDiffs
  else jsSlice fileDiffs 0 maxFiles

/-- The source's `extractHunksWithContext`.  The first component is the
returned list of hunk views; the second component is the caller's `fileDiff`
argument as observable after the call.  The body only reads from the argument
and builds fresh records (the `{...hunk, ...}` spread), never assigning to
`fileDiff` or to any stored hunk, so the argument comes back exactly as it
was passed. -/
def extractHunksWithContext (fileDiff : Option FileDiff) (contextLines : Int) :
    List DiffHunk × Option FileDiff :=
  match fileDiff with
  | none => ([], none)
  | some fd =>
    (fd.hunks.map fun hunk =>
      let ls := hunk.lines
      let contextStart : Int := max 0 (0 - contextLines)
      let contextEnd : Int := min (ls.length : Int) ((ls.length : Int) + contextLines)
      { hunk with lines := jsSlice ls contextStart contextEnd,
                  content := String.intercalate "\n" (jsSlice ls contextStart contextEnd) },
     some fd)

/-- A hunk body line that the engine classifies as an addition. -/
def isAdditionLine (l : String) : Bool :=
  strStartsWith l "+" && !(strStartsWith l "+++")

/-- A hunk body line that the engine classifies as a deletion. -/
def isDeletionLine (l : String) : Bool :=
  strStartsWith l "-" && !(strStartsWith l "---")

/-- Count of addition-classified lines stored across a file's hunks. -/
def storedAdditions (f : FileDiff) : Nat :=
  (f.hunks.map fun h => (h.lines.filter isAdditionLine).length).sum

/-- Count of deletion-classified lines stored across a file's hunks. -/
def storedDeletions (f : FileDiff) : Nat :=
  (f.hunks.map fun h => (h.lines.filter isDeletionLine).length).sum

/-- The loop of `extractChangedLines`, walking the hunk lines with their
index: an addition is reported at `newStart + index`, a deletion at
`oldStart + index`, with the leading marker stripped by `substring(1)`. -/
def changedLinesFrom (hunk : DiffHunk) : List String → Nat → List ChangedLine
  | [], _ => []
  | l :: rest, idx =>
    if isAdditionLine l then
      { type := "addition", line := ⟨l.data.drop 1⟩,
        lineNumber := hunk.newStart + idx, hunkIndex := idx }
        :: changedLinesFrom hunk rest (idx + 1)
    else if isDeletionLine l then
      { type := "deletion", line := ⟨l.data.drop 1⟩,
        lineNumber := hunk.oldStart + idx, hunkIndex := idx }
        :: changedLinesFrom hunk rest (idx + 1)
    else changedLinesFrom hunk rest (idx + 1)

/-- The source's `extractChangedLines`. -/
def extractChangedLines (hunk : DiffHunk) : List ChangedLine :=
  changedLinesFrom hunk hunk.lines 0

/-- Reference resolution of changed-line numbers in the unified-diff format
(the spec's ChangedLine view: a type, the marker-stripped text, and the
resolved line number in the relevant file version).  A context line advances
both counters; an addition is reported at, and advances, the new-file
counter; a deletion is reported at, and advances, the old-file counter. -/
def resolvedFrom : List String → Nat → Nat → Nat → List ChangedLine
  | [], _, _, _ => []
  | l :: rest, o, n, idx =>
    if isAdditionLine l then
      { type := "addition", line := ⟨l.data.drop 1⟩, lineNumber := n, hunkIndex := idx }
        :: resolvedFrom rest o (n + 1) (idx + 1)
    else if isDeletionLine l then
      { type := "deletion", line := ⟨l.data.drop 1⟩, lineNumber := o, hunkIndex := idx }
        :: resolvedFrom rest (o + 1) n (idx + 1)
    else resolvedFrom rest (o + 1) (n + 1) (idx + 1)

/-- The reference view for a whole hunk, starting from its header fields. -/
def resolvedChangedLines (hunk : DiffHunk) : List ChangedLine :=
  resolvedFrom hunk.lines hunk.oldStart hunk.newStart 0

/-- A two-file diff whose first file's (only) hunk is still open when the
second `diff --git` line arrives. -/
def crossFileDiff : String :=
  "diff --git a/f1.txt b/f1.txt\n@@ -1,2 +1,2 @@\n context\n+added\ndiff --git a/f2.txt b/f2.txt\n@@ -5 +5 @@\n-removed"

/-- A two-file diff with one added line in each file. -/
def twoFileAdditionsDiff : String :=
  "diff --git a/x.js b/x.js\n@@ -1 +1 @@\n+new line\ndiff --git a/y.js b/y.js\n@@ -2 +2 @@\n+other"

/-- A diff whose last file is binary and follows a file with an open hunk. -/
def binaryTailDiff : String :=
  "diff --git a/a.txt b/a.txt\n@@ -1 +1 @@\n+x\ndiff --git a/b.png b/b.png\nBinary files a/b.png and b/b.png differ"

/-- A well-formed single-line-replacement hunk (one deletion followed by one
addition at the same position). -/
def mixedHunk : DiffHunk :=
  { file := "", oldStart := 3, oldCount := 1, newStart := 3, newCount := 1,
    lines := ["-old text", "+new text"],
    content := "@@ -3 +3 @@\n-old text\n+new text\n",
    additions := 1, deletions := 1, context := "" }

/-- A three-line hunk (deletion, addition, context). -/
def threeLineHunk : DiffHunk :=
  { file := "", oldStart := 1, oldCount := 2, newStart := 1, newCount := 2,
    lines := ["-old line 1", "+new line 1", " context line"],
    content := "@@ -1,2 +1,2 @@\n-old line 1\n+new line 1\n context line\n",
    additions := 1, deletions := 1, context := "" }

/-- A file diff holding the three-line hunk. -/
def threeLineFile : FileDiff :=
  { path := "file.js", oldPath := "file.js", newPath := "file.js",
    status := "modified", hunks := [threeLineHunk], rawDiff := "",
    additions := 1, deletions := 1, binary := false, index := none }

/-- A plain file record for exercising the filter and the limiter. -/
def plainFile (p : String) : FileDiff :=
  { path := p, oldPath := p, newPath := p, status := "modified", hunks := [],
    rawDiff := "", additions := 0, deletions := 0, binary := false, index := none }

/-- Sample file list for the filter and limiter witnesses. -/
def sampleFiles : List FileDiff :=
  [plainFile "src/app.js", plainFile "dist/bundle.js", plainFile "test/spec.js"]

/-- Claim C1: the claim says a `diff --git` line pushes the current file's
last open hunk into that file before the file is flushed, so hunks stay with
their own file.  The code flushes the file without the hunk: on this two-file
input, the first file ends with no hunks at all and its open hunk is pushed
into the second file at the second file's first hunk header. -/
theorem parseDiff_hunk_lands_in_later_file :
    (parseOk (some crossFileDiff)).map (fun f => (f.path, f.hunks.map fun h => h.lines))
      = [("f1.txt", []), ("f2.txt", [[" context", "+added"], ["-removed"]])] := rfl

/-- Claim C2: the claim says each FileDiff's `additions`/`deletions` equal
the addition/deletion lines stored across its own hunks.  On this two-file
input the first file counts 1 addition but stores no hunks, and the second
counts 1 addition but stores hunks holding 2 addition lines. -/
theorem parseDiff_counts_disagree_with_stored_hunks :
    (parseOk (some twoFileAdditionsDiff)).map
        (fun f => (f.additions, storedAdditions f, f.deletions, storedDeletions f))
      = [(1, 0, 0, 0), (1, 2, 0, 0)] := rfl

/-- Claim C5: the claim says a binary FileDiff retains no hunks.  On this
diff (a normal file followed by a binary file, as git emits it), the end of
input flushes the first file's still-open hunk into the binary file, which
therefore holds one hunk. -/
theorem parseDiff_binary_file_retains_hunk :
    (parseOk (some binaryTailDiff)).map (fun f => (f.path, f.binary, f.hunks.length))
      = [("a.txt", false, 0), ("b.png", true, 1)] := rfl

/-- Claim C6: the claim says `extractChangedLines` reports each addition at
its resolved new-file line number and each deletion at its resolved old-file
line number.  On a one-line replacement hunk starting at line 3 the code
reports the addition at `newStart + index = 4`, while the resolved new-file
number (reference semantics `resolvedChangedLines`) is 3. -/
theorem extractChangedLines_misresolves_addition :
    (extractChangedLines mixedHunk).map (fun c => (c.type, c.line, c.lineNumber))
        = [("deletion", "old text", 3), ("addition", "new text", 4)] ∧
    (resolvedChangedLines mixedHunk).map (fun c => (c.type, c.line, c.lineNumber))
        = [("deletion", "old text", 3), ("addition", "new text", 3)] ∧
    extractChangedLines mixedHunk ≠ resolvedChangedLines mixedHunk :=
  ⟨rfl, rfl, by decide⟩

/-- Claim C3 (counterexample): a line can begin with the hunk marker and fail
the header shape without `parseDiff` throwing: with no preceding file-start
line the `@@` branch is skipped, and this input parses to the empty list. -/
theorem parseDiff_malformed_hunk_without_file_ok :
    strStartsWith "@@oops" "@@" = true ∧ hunkHeaderMatches "@@oops" = false ∧
    parseDiff (some "@@oops") = Except.ok [] :=
  ⟨rfl, rfl, rfl⟩

/-- Claim C4 (counterexample): with a context budget of 1, a three-line hunk
view keeps all 3 lines, exceeding the claimed `2 × budget = 2` bound (this is
also the behaviour pinned by the repository's own unit test). -/
theorem extractHunks_exceeds_budget :
    ((extractHunksWithContext (some threeLineFile) 1).1.map fun h => h.lines.length) = [3] ∧
    ¬(3 ≤ 2 * 1) :=
  ⟨rfl, by decide⟩

/-- If `pd` is a (boolean) prefix of `ld`, the two lists share their first
element. -/
lemma isPrefixOf_head {pd ld : List Char} {c : Char} (h : List.isPrefixOf pd ld = true)
    (hc : pd.head? = some c) : ld.head? = some c := by
  cases pd with
  | nil => cases hc
  | cons a t =>
    cases ld with
    | nil => exact Bool.noConfusion h
    | cons b u =>
      rw [List.head?_cons, Option.some.injEq] at hc ⊢
      have h1 : (a == b && List.isPrefixOf t u) = true := h
      rw [Bool.and_eq_true] at h1
      rw [← beq_iff_eq.mp h1.1]
      exact hc

/-- A line starting with a nonempty prefix starts with that prefix's first
character. -/
lemma strStartsWith_head {l p : String} {c : Char} (h : strStartsWith l p = true)
    (hc : p.data.head? = some c) : l.data.head? = some c :=
  isPrefixOf_head h hc

/-- Two prefixes with different first characters cannot both match. -/
lemma head_ne_startsWith {l p : String} {c d : Char} (hl : l.data.head? = some c)
    (hp : p.data.head? = some d) (hne : c ≠ d) : strStartsWith l p = false := by
  by_contra hcon
  rw [Bool.not_eq_false] at hcon
  have h2 := strStartsWith_head hcon hp
  rw [hl] at h2
  exact hne (Option.some_inj.mp h2)

lemma except_bind_ok {ε α β : Type} (a : α) (f : α → Except ε β) :
    (Except.ok a : Except ε α).bind f = f a := rfl

lemma except_bind_error {ε α β : Type} (e : ε) (f : α → Except ε β) :
    (Except.error e : Except ε α).bind f = .error e := rfl

lemma except_map_error {ε α β : Type} (e : ε) (f : α → β) :
    (Except.error e : Except ε α).map f = .error e := rfl

lemma stepFileStart_isSome (l : String) (st : ParseState) :
    (stepFileStart l st).currentFile.isSome = true := rfl

lemma stepIndexLine_isSome (l : String) (st : ParseState)
    (h : st.currentFile.isSome = true) : (stepIndexLine l st).currentFile.isSome = true := by
  obtain ⟨fds, cf, ch, ihk⟩ := st
  obtain ⟨f, hf⟩ := Option.isSome_iff_exists.mp h
  have hf1 : cf = some f := hf
  subst hf1
  rfl

lemma stepBinary_isSome (st : ParseState)
    (h : st.currentFile.isSome = true) : (stepBinary st).currentFile.isSome = true := by
  obtain ⟨fds, cf, ch, ihk⟩ := st
  obtain ⟨f, hf⟩ := Option.isSome_iff_exists.mp h
  have hf1 : cf = some f := hf
  subst hf1
  rfl

lemma stepMode_isSome (l : String) (st : ParseState)
    (h : st.currentFile.isSome = true) : (stepMode l st).currentFile.isSome = true := by
  obtain ⟨fds, cf, ch, ihk⟩ := st
  obtain ⟨f, hf⟩ := Option.isSome_iff_exists.mp h
  have hf1 : cf = some f := hf
  subst hf1
  unfold stepMode
  split_ifs <;> rfl

lemma stepRename_isSome (l : String) (st : ParseState)
    (h : st.currentFile.isSome = true) : (stepRename l st).currentFile.isSome = true := by
  obtain ⟨fds, cf, ch, ihk⟩ := st
  obtain ⟨f, hf⟩ := Option.isSome_iff_exists.mp h
  have hf1 : cf = some f := hf
  subst hf1
  unfold stepRename
  split_ifs <;> rfl

lemma stepContent_isSome (l : String) (st : ParseState)
    (h : st.currentFile.isSome = true) : (stepContent l st).currentFile.isSome = true := by
  obtain ⟨fds, cf, ch, ihk⟩ := st
  obtain ⟨f, hf⟩ := Option.isSome_iff_exists.mp h
  have hf1 : cf = some f := hf
  subst hf1
  cases ihk with
  | false => rfl
  | true =>
    cases ch with
    | none => rfl
    | some h0 =>
      unfold stepContent
      split_ifs <;> rfl

lemma stepHunkHeader_ok (line : String) (i : Nat) (st : ParseState)
    (hcf : st.currentFile.isSome = true) (hmt : hunkHeaderMatches line = true) :
    ∃ st1, stepHunkHeader line i st = .ok st1 ∧ st1.currentFile.isSome = true := by
  obtain ⟨fds, cf, ch, ihk⟩ := st
  obtain ⟨f, hf⟩ := Option.isSome_iff_exists.mp hcf
  have hf1 : cf = some f := hf
  subst hf1
  obtain ⟨r, hr⟩ := Option.isSome_iff_exists.mp hmt
  obtain ⟨o1, oc, n1, nc, rest⟩ := r
  unfold stepHunkHeader parseHunkHeader
  rw [hr]
  exact ⟨_, rfl, rfl⟩

lemma stepHunkHeader_error (line : String) (i : Nat) (st : ParseState)
    (hcf : st.currentFile.isSome = true) (hmt : hunkHeaderMatches line = false) :
    stepHunkHeader line i st = .error ⟨i, line⟩ := by
  obtain ⟨fds, cf, ch, ihk⟩ := st
  obtain ⟨f, hf⟩ := Option.isSome_iff_exists.mp hcf
  have hf1 : cf = some f := hf
  subst hf1
  have hfind : findHunkMatch line.data = none := by
    cases hfm : findHunkMatch line.data with
    | none => rfl
    | some r =>
      unfold hunkHeaderMatches at hmt
      rw [hfm] at hmt
      cases hmt
  unfold stepHunkHeader parseHunkHeader
  rw [hfind]

/-- Without a current file, any line other than a file-start marker leaves
the loop state untouched. -/
lemma parseStep_no_file (l : String) (i : Nat) (st : ParseState)
    (hgit : strStartsWith l "diff --git" = false) (hcf : st.currentFile = none) :
    parseStep l i st = .ok st := by
  obtain ⟨fds, cf, ch, ihk⟩ := st
  have hcf1 : cf = none := hcf
  subst hcf1
  unfold parseStep
  rw [if_neg (by simp [hgit])]
  split_ifs
  · rfl
  · rfl
  · rfl
  · rfl
  · rfl
  · cases ihk <;> cases ch <;> rfl

/-- With a current file, a line that is not a malformed hunk header steps
without error and keeps a current file. -/
lemma parseStep_ok_preserves (l : String) (i : Nat) (st : ParseState)
    (hcf : st.currentFile.isSome = true)
    (hok : strStartsWith l "@@" = false ∨ hunkHeaderMatches l = true) :
    ∃ st1, parseStep l i st = .ok st1 ∧ st1.currentFile.isSome = true := by
  unfold parseStep
  split_ifs with h1 h2 h3 h4 h5 h6
  · exact ⟨_, rfl, stepFileStart_isSome l st⟩
  · exact ⟨_, rfl, stepIndexLine_isSome l st hcf⟩
  · exact ⟨_, rfl, stepBinary_isSome st hcf⟩
  · exact ⟨_, rfl, stepMode_isSome l st hcf⟩
  · exact ⟨_, rfl, stepRename_isSome l st hcf⟩
  · rcases hok with hok | hok
    · rw [h6] at hok; cases hok
    · exact stepHunkHeader_ok l i st hcf hok
  · exact ⟨_, rfl, stepContent_isSome l st hcf⟩

/-- With a current file, a malformed hunk-header line throws, carrying the
line index. -/
lemma parseStep_malformed (l : String) (i : Nat) (st : ParseState)
    (hcf : st.currentFile.isSome = true)
    (hat : strStartsWith l "@@" = true) (hmm : hunkHeaderMatches l = false) :
    parseStep l i st = .error ⟨i, l⟩ := by
  have hhead : l.data.head? = some '@' := strStartsWith_head hat rfl
  have hg : strStartsWith l "diff --git" = false := head_ne_startsWith hhead rfl (by decide)
  have hi : strStartsWith l "index " = false := head_ne_startsWith hhead rfl (by decide)
  have hb : strStartsWith l "Binary files" = false := head_ne_startsWith hhead rfl (by decide)
  have hn : strStartsWith l "new file mode" = false := head_ne_startsWith hhead rfl (by decide)
  have hd : strStartsWith l "deleted file mode" = false := head_ne_startsWith hhead rfl (by decide)
  have hrf : strStartsWith l "rename from" = false := head_ne_startsWith hhead rfl (by decide)
  have hrt : strStartsWith l "rename to" = false := head_ne_startsWith hhead rfl (by decide)
  unfold parseStep
  rw [if_neg (by simp [hg]), if_neg (by simp [hi]), if_neg (by simp [hb]),
      if_neg (by simp [hn, hd]), if_neg (by simp [hrf, hrt]), if_pos hat]
  exact stepHunkHeader_error l i st hcf hmm

/-- The scan splits along list concatenation. -/
lemma scanLines_append (A B : List String) (i : Nat) (st : ParseState) :
    scanLines (A ++ B) i st =
      (scanLines A i st).bind fun st1 => scanLines B (i + A.length) st1 := by
  induction A generalizing i st with
  | nil =>
    simp only [List.nil_append, scanLines, except_bind_ok, List.length_nil, Nat.add_zero]
  | cons l rest ih =>
    simp only [List.cons_append, scanLines]
    cases hstep : parseStep l i st with
    | error e => simp only [except_bind_error]
    | ok st1 =>
      simp only [except_bind_ok, List.append_eq]
      rw [ih (i + 1) st1]
      have harith : i + 1 + rest.length = i + (l :: rest).length := by
        simp only [List.length_cons]
        omega
      rw [harith]

/-- A run of lines without any file-start marker leaves a file-less state
untouched. -/
lemma scanLines_no_git : ∀ (A : List String) (i : Nat) (st : ParseState),
    st.currentFile = none → (∀ l ∈ A, strStartsWith l "diff --git" = false) →
    scanLines A i st = .ok st := by
  intro A
  induction A with
  | nil => intro i st _ _; rfl
  | cons l rest ih =>
    intro i st hcf hA
    have hstep := parseStep_no_file l i st (hA l (List.mem_cons_self l rest)) hcf
    simp only [scanLines, hstep, except_bind_ok]
    exact ih (i + 1) st hcf (fun x hx => hA x (List.mem_cons_of_mem l hx))

/-- A run of lines whose hunk markers are all well formed scans without error
and keeps a current file. -/
lemma scanLines_keeps_file : ∀ (B : List String) (i : Nat) (st : ParseState),
    st.currentFile.isSome = true →
    (∀ l ∈ B, strStartsWith l "@@" = true → hunkHeaderMatches l = true) →
    ∃ st1, scanLines B i st = .ok st1 ∧ st1.currentFile.isSome = true := by
  intro B
  induction B with
  | nil => intro i st hcf _; exact ⟨st, rfl, hcf⟩
  | cons l rest ih =>
    intro i st hcf hB
    have hok : strStartsWith l "@@" = false ∨ hunkHeaderMatches l = true := by
      cases hSW : strStartsWith l "@@" with
      | false => exact Or.inl rfl
      | true => exact Or.inr (hB l (List.mem_cons_self l rest) hSW)
    obtain ⟨st1, hstep, hcf1⟩ := parseStep_ok_preserves l i st hcf hok
    obtain ⟨st2, hscan, hcf2⟩ :=
      ih (i + 1) st1 hcf1 (fun x hx h => hB x (List.mem_cons_of_mem l hx) h)
    refine ⟨st2, ?_, hcf2⟩
    simp only [scanLines, hstep, except_bind_ok]
    exact hscan

/-- Claim C3 (amended): `parseDiff` never throws on a null-like argument, on
the empty string, or on any input without a file-start line (all yield the
empty list); and a line beginning with the hunk marker that fails the header
shape makes `parseDiff` throw with that line's index, provided a file-start
line precedes it and no earlier such malformed marker line follows a
file-start line (a malformed marker with no preceding file-start line is
skipped, as the counterexample shows). -/
theorem parseDiff_error_spec :
    parseDiff none = .ok [] ∧
    parseDiff (some "") = .ok [] ∧
    (∀ text : String, (∀ l ∈ splitLines text, strStartsWith l "diff --git" = false) →
        parseDiff (some text) = .ok []) ∧
    (∀ (text : String) (A B C : List String) (g m : String),
        splitLines text = A ++ g :: (B ++ m :: C) →
        (∀ l ∈ A, strStartsWith l "diff --git" = false) →
        strStartsWith g "diff --git" = true →
        (∀ l ∈ B, strStartsWith l "@@" = true → hunkHeaderMatches l = true) →
        strStartsWith m "@@" = true → hunkHeaderMatches m = false →
        parseDiff (some text) = .error ⟨A.length + 1 + B.length, m⟩) := by
  refine ⟨rfl, rfl, ?_, ?_⟩
  · intro text hng
    by_cases htext : text = ""
    · rw [htext]; rfl
    · show (if text = "" then Except.ok []
            else (scanLines (splitLines text) 0 initState).map finishScan) = Except.ok []
      rw [if_neg htext, scanLines_no_git (splitLines text) 0 initState rfl hng]
      rfl
  · intro text A B C g m hsplit hA hg hB hm hmm
    have htext : text ≠ "" := by
      intro h
      subst h
      have h1 : (splitLines "").length = (A ++ g :: (B ++ m :: C)).length :=
        congrArg List.length hsplit
      have h2 : (splitLines "").length = 1 := rfl
      rw [h2, List.length_append, List.length_cons, List.length_append, List.length_cons] at h1
      omega
    have hstepg : parseStep g (0 + A.length) initState =
        .ok ⟨[], some (createNewFileDiff g), none, false⟩ := by
      unfold parseStep
      rw [if_pos hg]
      rfl
    obtain ⟨stb, hscanB, hcfb⟩ :=
      scanLines_keeps_file B (0 + A.length + 1) ⟨[], some (createNewFileDiff g), none, false⟩ rfl hB
    have hstepm := parseStep_malformed m (0 + A.length + 1 + B.length) stb hcfb hm hmm
    show (if text = "" then Except.ok []
          else (scanLines (splitLines text) 0 initState).map finishScan) = _
    rw [if_neg htext, hsplit,
        scanLines_append A (g :: (B ++ m :: C)) 0 initState,
        scanLines_no_git A 0 initState rfl hA, except_bind_ok]
    simp only [scanLines, hstepg, except_bind_ok]
    rw [scanLines_append B (m :: C) (0 + A.length + 1)
          ⟨[], some (createNewFileDiff g), none, false⟩,
        hscanB, except_bind_ok]
    simp only [scanLines, hstepm, except_bind_error, except_map_error]
    have harith : 0 + A.length + 1 + B.length = A.length + 1 + B.length := by omega
    rw [harith]

/-- Witness for the C3 theorem: a file-start line followed by a malformed
hunk marker makes the parse throw with index 1, and the null-like input
parses to the empty list. -/
theorem parseDiff_error_spec_witness :
    parseDiff (some "diff --git a/a b/a\n@@bad") = .error ⟨1, "@@bad"⟩ ∧
    parseDiff none = .ok [] :=
  ⟨parseDiff_error_spec.2.2.2 "diff --git a/a b/a\n@@bad" [] [] [] "diff --git a/a b/a"
      "@@bad" (by decide) (by decide) (by decide) (by decide) (by decide) (by decide),
   parseDiff_error_spec.1⟩

/-- Claim C9: `extractHunksWithContext` is a pure view: the argument comes
back unchanged after the call, and every returned view keeps the original
hunk's header fields and counters (only `lines`/`content` are rebuilt, from a
slice of the original lines). -/
theorem extractHunks_frame (fd : Option FileDiff) (c : Int) :
    (extractHunksWithContext fd c).2 = fd ∧
    ∀ f, fd = some f →
      ((extractHunksWithContext fd c).1.map fun h =>
          (h.file, h.oldStart, h.oldCount, h.newStart, h.newCount,
            h.additions, h.deletions, h.context))
        = f.hunks.map fun h =>
          (h.file, h.oldStart, h.oldCount, h.newStart, h.newCount,
            h.additions, h.deletions, h.context) := by
  cases fd with
  | none => exact ⟨rfl, fun f hf => by cases hf⟩
  | some f0 =>
    refine ⟨rfl, fun f hf => ?_⟩
    cases hf
    simp only [extractHunksWithContext, List.map_map]
    exact List.map_congr_left fun h _ => rfl

/-- Witness for the C9 theorem at a concrete file diff and budget. -/
theorem extractHunks_frame_witness :
    ((extractHunksWithContext (some threeLineFile) 3).1.map fun h =>
        (h.file, h.oldStart, h.oldCount, h.newStart, h.newCount,
          h.additions, h.deletions, h.context))
      = threeLineFile.hunks.map fun h =>
        (h.file, h.oldStart, h.oldCount, h.newStart, h.newCount,
          h.additions, h.deletions, h.context) :=
  (extractHunks_frame (some threeLineFile) 3).2 threeLineFile rfl

/-- For a non-negative budget the slice bounds of `extractHunksWithContext`
degenerate to the whole list. -/
lemma jsSlice_degenerate {α : Type} (l : List α) (c : Int) (hc : 0 ≤ c) :
    jsSlice l (max 0 (0 - c)) (min (l.length : Int) ((l.length : Int) + c)) = l := by
  have h1 : max 0 (0 - c) = 0 := by omega
  have h2 : min (l.length : Int) ((l.length : Int) + c) = (l.length : Int) := by omega
  rw [h1, h2]
  unfold jsSlice jsSliceIdx
  have h0 : ¬((0 : Int) < 0) := by omega
  have hl : ¬((l.length : Int) < 0) := by omega
  rw [if_neg h0, if_neg hl]
  simp

/-- Claim C4 (amended): for every FileDiff and non-negative context budget,
the hunk views returned by `extractHunksWithContext` keep each hunk's lines
unchanged — the slice bounds `max(0, 0 - budget)` and
`min(length, length + budget)` are the whole range, so no `2 × budget` bound
is enforced. -/
theorem extractHunks_lines_unchanged (fd : FileDiff) (c : Int) (hc : 0 ≤ c) :
    ((extractHunksWithContext (some fd) c).1.map fun h => h.lines)
      = fd.hunks.map fun h => h.lines := by
  unfold extractHunksWithContext
  simp only [List.map_map]
  refine List.map_congr_left fun h _ => ?_
  exact jsSlice_degenerate h.lines c hc

/-- Witness for the C4 theorem at the three-line sample file with budget 1. -/
theorem extractHunks_lines_unchanged_witness :
    ((extractHunksWithContext (some threeLineFile) 1).1.map fun h => h.lines)
      = threeLineFile.hunks.map fun h => h.lines :=
  extractHunks_lines_unchanged threeLineFile 1 (by decide)

/-- Claim C8: `limitFiles` returns the input unchanged for a non-positive
limit, and the first `max` files (so `min (length, max)` of them) in order
for a positive one. -/
theorem limitFiles_spec (files : List FileDiff) (m : Int) :
    (m ≤ 0 → limitFiles files m = files) ∧
    (0 < m → limitFiles files m = files.take m.toNat ∧
      (limitFiles files m).length = min files.length m.toNat) := by
  constructor
  · intro hm
    unfold limitFiles
    rw [if_pos (Or.inr hm)]
  · intro hm
    have hcond : ¬(m = 0 ∨ m ≤ 0) := by omega
    have heq : limitFiles files m = files.take m.toNat := by
      unfold limitFiles
      rw [if_neg hcond]
      unfold jsSlice jsSliceIdx
      have h0 : ¬((0 : Int) < 0) := by omega
      have hmn : ¬(m < 0) := by omega
      rw [if_neg hmn, if_neg h0]
      simp only [Int.toNat_zero, Nat.zero_min, List.drop_zero]
      rcases Nat.le_total m.toNat files.length with h | h
      · rw [Nat.min_eq_left h]
      · rw [Nat.min_eq_right h, List.take_length, List.take_of_length_le h]
    refine ⟨heq, ?_⟩
    rw [heq, List.length_take, Nat.min_comm]

/-- Witness for the C8 theorem: taking 2 of 3 sample files, and a negative
limit returning the input unchanged. -/
theorem limitFiles_spec_witness :
    limitFiles sampleFiles 2 = sampleFiles.take 2 ∧
    limitFiles sampleFiles (-1) = sampleFiles :=
  ⟨((limitFiles_spec sampleFiles 2).2 (by decide)).1,
   (limitFiles_spec sampleFiles (-1)).1 (by decide)⟩

/-- A string without a `*` has no `**` either. -/
lemma hasSubstr_starstar_of_star (s : List Char) (h : hasSubstr s ['*'] = false) :
    hasSubstr s ['*', '*'] = false := by
  induction s with
  | nil => rfl
  | cons c t ih =>
    unfold hasSubstr at h ⊢
    by_cases hc : ('*' : Char) = c
    · subst hc
      simp [List.isPrefixOf] at h
    · have hp1 : (['*'] : List Char).isPrefixOf (c :: t) = false := by
        simp [List.isPrefixOf, hc]
      have hp2 : (['*', '*'] : List Char).isPrefixOf (c :: t) = false := by
        simp [List.isPrefixOf, hc]
      rw [hp1] at h
      rw [hp2]
      simp only [Bool.false_eq_true, if_false] at h ⊢
      exact ih h

/-- Reduction of `filterFiles` for a nonempty pattern list. -/
lemma filterFiles_some_ne (files : List FileDiff) (ps : List String) (hps : ps ≠ []) :
    filterFiles files (some ps) =
      files.filter fun fd => !(ps.any fun p => matchesPattern fd.path p) := by
  show (if ps.length = 0 then files
        else files.filter fun fd => !(ps.any fun p => matchesPattern fd.path p)) = _
  exact if_neg (by simpa [List.length_eq_zero] using hps)

/-- Claim C7: `filterFiles` with an unset or empty pattern list is the
identity; otherwise it keeps, in order (a sublist of the input), exactly the
files no pattern matches; and a pattern without a wildcard matches a path
exactly when the path equals it or extends it across a path separator. -/
theorem filterFiles_spec (files : List FileDiff) (ps : List String) :
    filterFiles files none = files ∧
    filterFiles files (some []) = files ∧
    (∀ f, f ∈ filterFiles files (some ps) ↔
      f ∈ files ∧ ∀ p ∈ ps, matchesPattern f.path p = false) ∧
    (filterFiles files (some ps)).Sublist files ∧
    (∀ path p : String, hasSubstr p.data ['*'] = false →
      (matchesPattern path p = true ↔ path = p ∨ strStartsWith path (p ++ "/") = true)) := by
  refine ⟨rfl, rfl, ?_, ?_, ?_⟩
  · intro f
    by_cases hps : ps = []
    · subst hps
      simp [filterFiles]
    · rw [filterFiles_some_ne files ps hps]
      simp [List.mem_filter, List.any_eq_true]
  · by_cases hps : ps = []
    · subst hps
      exact List.Sublist.refl _
    · rw [filterFiles_some_ne files ps hps]
      exact List.filter_sublist _
  · intro path p hp
    have hss := hasSubstr_starstar_of_star p.data hp
    unfold matchesPattern
    rw [hss, hp]
    simp only [Bool.false_eq_true, if_false, Bool.or_eq_true, beq_iff_eq]

/-- Witness for the C7 theorem: the non-wildcard pattern `dist` matches
`dist/a.js` (path-separated prefix), and unset patterns are the identity. -/
theorem filterFiles_spec_witness :
    matchesPattern "dist/a.js" "dist" = true ∧
    filterFiles sampleFiles none = sampleFiles :=
  ⟨((filterFiles_spec sampleFiles []).2.2.2.2 "dist/a.js" "dist" (by decide)).mpr
      (Or.inr (by decide)),
   (filterFiles_spec sampleFiles []).1⟩

/-- Unanchored search succeeds exactly when the tokens match at some start
position. -/
lemma rSearch_iff (ts : List RTok) (s : List Char) :
    rSearch ts s = true ↔ ∃ i, rMatch ts (s.drop i) = true := by
  induction s with
  | nil =>
    simp only [rSearch, List.drop_nil]
    exact ⟨fun h => ⟨0, h⟩, fun ⟨_, h⟩ => h⟩
  | cons c xs ih =>
    simp only [rSearch, Bool.or_eq_true]
    constructor
    · rintro (h | h)
      · exact ⟨0, h⟩
      · obtain ⟨i, hi⟩ := ih.mp h
        exact ⟨i + 1, hi⟩
    · rintro ⟨i, hi⟩
      cases i with
      | zero => exact Or.inl hi
      | succ j => exact Or.inr (ih.mpr ⟨j, hi⟩)

/-- Claim C10: for a wildcard pattern, the derived regex is applied without
anchors — a path matches exactly when the compiled tokens match at some
position inside it; in particular `dist/**` matches `src/dist/bundle.js` and,
with the `.` of `*.env` unescaped, `*.env` matches the path `src/Xenv`. -/
theorem matchesPattern_unanchored (path pattern : String)
    (hw : hasSubstr pattern.data ['*'] = true) :
    (matchesPattern path pattern = true ↔
      ∃ i, rMatch (globTokens pattern) (path.data.drop i) = true) ∧
    matchesPattern "src/dist/bundle.js" "dist/**" = true ∧
    matchesPattern "src/Xenv" "*.env" = true := by
  refine ⟨?_, rfl, rfl⟩
  have hm : matchesPattern path pattern = rSearch (globTokens pattern) path.data := by
    unfold matchesPattern globTokens
    by_cases hss : hasSubstr pattern.data ['*', '*'] = true
    · rw [hss]
      simp
    · rw [Bool.not_eq_true] at hss
      rw [hss, hw]
      simp
  rw [hm]
  exact rSearch_iff _ _

/-- Witness for the C10 theorem at its two concrete pattern examples. -/
theorem matchesPattern_unanchored_witness :
    matchesPattern "src/Xenv" "*.env" = true ∧
    matchesPattern "src/dist/bundle.js" "dist/**" = true :=
  ⟨(matchesPattern_unanchored "src/Xenv" "*.env" (by decide)).2.2,
   (matchesPattern_unanchored "src/dist/bundle.js" "dist/**" (by decide)).2.1⟩
